import Mathlib

/-!
Verification of the menu-schedule converter (`advanced_kondate_converter.py`).
The Python source is shallowly embedded: pure helpers become Lean functions,
the Python `set`-mutation-during-iteration error (CPython raises
`RuntimeError: Set changed size during iteration` whenever an element is
discarded from a set that is being iterated) is modelled with `Except`,
and `int(...)`/`ValueError` is modelled with `Option`.
Machine floats never influence any claim; word coordinates are modelled as `Int`.
-/

set_option maxHeartbeats 1000000

namespace Kondate

/-- Python whitespace (`str.isspace` / regex `\s` on `str`), restricted to the
whitespace code points that can realistically occur in the documents. -/
def pyWs (c : Char) : Bool :=
  c = ' ' ∨ c = '\t' ∨ c = '\n' ∨ c = '\x0b' ∨ c = '\x0c' ∨ c = '\r' ∨
  c = '\x1c' ∨ c = '\x1d' ∨ c = '\x1e' ∨ c = '\x1f' ∨ c = '\x85' ∨ c = '\xa0' ∨
  c.toNat = 0x1680 ∨ (0x2000 ≤ c.toNat ∧ c.toNat ≤ 0x200a) ∨
  c.toNat = 0x2028 ∨ c.toNat = 0x2029 ∨ c.toNat = 0x202f ∨ c.toNat = 0x205f ∨ c = '　'

/-- Python `str.strip()` on a char list. -/
def pyStripChars (cs : List Char) : List Char :=
  ((cs.dropWhile pyWs).reverse.dropWhile pyWs).reverse

/-- Python `str.strip()`. -/
def pyStrip (s : String) : String := String.mk (pyStripChars s.data)

/-- Auxiliary state machine for `re.sub(r'\s+', ' ', text)`: the flag records
whether the previous character was part of a whitespace run. -/
def collapseAux : List Char → Bool → List Char
  | [], _ => []
  | c :: rest, prevWs =>
    if pyWs c then
      if prevWs then collapseAux rest true else ' ' :: collapseAux rest true
    else c :: collapseAux rest false

/-- `re.sub(r'\s+', ' ', text)`: every maximal whitespace run becomes one space. -/
def collapseWs (s : String) : String := String.mk (collapseAux s.data false)

/-- Contiguous-sublist test on char lists. -/
def listInfixB (needle : List Char) : List Char → Bool
  | [] => needle.isEmpty
  | c :: rest => needle.isPrefixOf (c :: rest) || listInfixB needle rest

/-- Python substring test `a in b` for strings. -/
def substrB (a b : String) : Bool := listInfixB a.data b.data

/-- Python `str.split(sep)` for a single-character separator (empty parts kept). -/
def splitOnChar (sep : Char) : List Char → List (List Char)
  | [] => [[]]
  | c :: rest =>
    let r := splitOnChar sep rest
    if c = sep then [] :: r
    else
      match r with
      | [] => [[c]]
      | h :: t => (c :: h) :: t

/-- The successive splitting of `_parse_menu_text_advanced`: split on newline,
full-width space, space and tab, in that order. -/
def splitSeps (s : String) : List (List Char) :=
  ['\n', '　', ' ', '\t'].foldl (fun parts sep => parts.flatMap (splitOnChar sep)) [s.data]

/-- ASCII digit value. -/
def digitVal (c : Char) : Nat := c.toNat - 48

/-- Numeric value of a digit run (`int` on a digit string). -/
def digitsVal (cs : List Char) : Nat := cs.foldl (fun n c => 10 * n + digitVal c) 0

/-- Tail of a valid Python integer literal body: digits with single underscores
strictly between digits. -/
def validIntTail : List Char → Bool
  | [] => true
  | '_' :: rest =>
    match rest with
    | [] => false
    | c :: _ => c.isDigit && validIntTail rest
  | c :: rest => c.isDigit && validIntTail rest

/-- Body of a valid Python integer literal: nonempty, starts with a digit. -/
def validIntBody : List Char → Bool
  | [] => false
  | c :: rest => c.isDigit && validIntTail rest

/-- Python `int(s)`: strip whitespace, optional sign, ASCII digits (with
underscores between digits); `none` models `ValueError`. -/
def pyInt (s : String) : Option Int :=
  let cs := pyStripChars s.data
  match cs with
  | '+' :: rest => if validIntBody rest then some (digitsVal (rest.filter (· ≠ '_'))) else none
  | '-' :: rest => if validIntBody rest then some (-(digitsVal (rest.filter (· ≠ '_')) : Int)) else none
  | _ => if validIntBody cs then some (digitsVal (cs.filter (· ≠ '_'))) else none

/-- Python `f"{n:02d}"` for a natural number. -/
def fmt02Nat (n : Nat) : String := if n ≤ 9 then "0" ++ toString n else toString n

/-- Python `f"{i:02d}"` for an `int` (a sign character counts towards the width). -/
def fmt02Int (i : Int) : String := if 0 ≤ i ∧ i ≤ 9 then "0" ++ toString i else toString i

/-- Hiragana range `[あ-ん]` of the source regexes. -/
def isHiragana (c : Char) : Bool := 0x3042 ≤ c.toNat ∧ c.toNat ≤ 0x3093

/-- Character class `[あ-ん一-龯ー・]` used by `_extract_dishes_by_pattern`. -/
def classChar (c : Char) : Bool :=
  isHiragana c ∨ (0x4e00 ≤ c.toNat ∧ c.toNat ≤ 0x9faf) ∨ c = 'ー' ∨ c = '・'

/-- The seven weekday characters `[月火水木金土日]`. -/
def weekdayChar (c : Char) : Bool :=
  c = '月' ∨ c = '火' ∨ c = '水' ∨ c = '木' ∨ c = '金' ∨ c = '土' ∨ c = '日'

/-- `MenuItem` dataclass. -/
structure MenuItem where
  name : String
  category : String
deriving DecidableEq, Repr

/-- `NutritionInfo` dataclass. -/
structure NutritionInfo where
  red : List String
  yellow : List String
  green : List String
deriving DecidableEq, Repr

/-- `DailyMenu` dataclass (`date` is the formatted label). -/
structure DailyMenu where
  date : String
  day_of_week : String
  menu_items : List MenuItem
  nutrition : NutritionInfo
deriving DecidableEq, Repr

/-- The one uncaught exception class the embedded code can raise:
CPython's `RuntimeError` from mutating a set while iterating over it. -/
inductive PyErr where
  | runtimeError
deriving DecidableEq, Repr

/-- `skip_keywords` of `_parse_menu_text_advanced`. -/
def skipKeywords : List String :=
  ["水", "塩", "みりん", "こいくちしょうゆ", "料理酒",
   "チキンスープの素", "トマトケチャップ", "ハヤシフレーク",
   "万能つゆ", "中濃ソース", "穀物酢", "ベーキングパウダー",
   "入り玉子焼き", "の味噌和え", "野菜の炒め", "さんまの塩焼き"]

/-- The direct-match dish list of `_extract_individual_dishes`. -/
def directDishes : List String :=
  ["わかめご飯", "ツナ入り玉子焼き", "キャベツの味噌和え", "さつま芋ご飯",
   "鶏肉のねぎ味噌焼き", "鶏肉の五目煮", "ひじき入りつくね", "チーズ入りオムレツ",
   "小松菜のソテー", "ハヤシライス", "ごぼうサラダ", "肉豆腐", "キャベツの和風マヨ和え",
   "たらの野菜あんかけ", "はりはり漬け", "ふろふき大根", "鶏肉のマーマレード焼き",
   "白菜サラダ", "具だくさん玉子焼き", "かぼちゃのおかか和え", "和風ミートローフ",
   "野菜の炒め物", "豆腐ステーキ", "トマトドレッシング和え", "親子丼", "ごまサラダ",
   "あじの塩こうじ焼き", "白菜の酢味噌和え", "ミートソーススパゲティ",
   "キャベツのマヨサラダ", "マフィン", "コロッケ", "人参ドレッシング和え",
   "オレンジ", "りんご", "グレープフルーツ", "大根のゆかり和え", "粉ふき芋"]

/-- `dish_patterns` of `_extract_individual_dishes`; each entry is a literal
pattern, so `re.search(pattern, line)` is a substring test and a match appends
the pattern string itself. -/
def dishPatterns : List String :=
  ["わかめご飯", "ツナ入り玉子焼き", "キャベツの味噌和え",
   "さつま芋ご飯", "鶏肉のねぎ味噌焼き", "鶏肉の五目煮",
   "ひじき入りつくね", "大根のゆかり和え", "チーズ入りオムレツ",
   "小松菜のソテー", "ハヤシライス", "ごぼうサラダ",
   "肉豆腐", "キャベツの和風マヨ和え", "たらの野菜あんかけ",
   "はりはり漬け", "ふろふき大根", "鶏肉のマーマレード焼き",
   "白菜サラダ", "具だくさん玉子焼き", "かぼちゃのおかか和え",
   "和風ミートローフ", "野菜の炒め物", "豆腐ステーキ",
   "トマトドレッシング和え", "親子丼", "ごまサラダ",
   "あじの塩こうじ焼き", "白菜の酢味噌和え",
   "ミートソーススパゲティ", "キャベツのマヨサラダ",
   "人参ドレッシング和え",
   "えびと野菜の玉子焼き", "ひじきとねぎの玉子焼き", "野菜と炒り玉子の和え物",
   "豚肉と野菜の炒め物", "鶏肉と根菜の煮物", "ひじきとさつま揚げの煮物",
   "きゅうりともやしのゆかり和え", "ポテトの和風バター和え",
   "ふりかけご飯", "きのこご飯", "麦ご飯", "夕焼けご飯", "青のりご飯",
   "玄米入りご飯", "あんかけ焼きそば", "ロールパン",
   "味噌汁", "コーンスープ", "わかめスープ", "すまし汁",
   "コンソメスープ", "マカロニスープ", "中華スープ", "ワンタンスープ", "根菜汁",
   "さわらの照り焼き", "なめたけ和え", "納豆和え", "粉ふき芋",
   "さばの塩焼き", "コロッケ", "マフィン",
   "麦茶", "牛乳", "チーズ", "オレンジ", "りんご", "グレープフルーツ"]

/-- `basic_items` of `_extract_individual_dishes`. -/
def basicItems : List String := ["ご飯", "味噌汁", "麦茶", "牛乳", "チーズ"]

/-- `valid_short_names` of `_is_valid_dish_name`. -/
def validShortNames : List String := ["ご飯", "牛乳", "麦茶", "チーズ", "りんご", "梨"]

/-- `problematic_patterns` of `_should_include_dish`. -/
def problematicPatterns : List String :=
  ["さんまの塩焼き", "の味噌和え", "野菜の炒め", "入り玉子焼き"]

/-- `invalid_keywords` of `_extract_dishes_by_pattern`. -/
def invalidKeywords : List String :=
  ["料理", "調味", "使用", "栄養", "食品", "食材", "成分"]

/-- `main_food_patterns`: all of the form `.*X`, so `re.search` is a substring
test on `X`. -/
def mainFoodPatterns : List String :=
  ["ご飯", "パン", "そば", "うどん", "ラーメン", "焼きそば", "麺", "ライス"]

/-- `soup_patterns` (same `.*X` shape). -/
def soupPatterns : List String := ["汁", "スープ", "みそ汁", "味噌汁"]

/-- `drink_patterns` (same `.*X` shape). -/
def drinkPatterns : List String := ["茶", "牛乳", "ジュース", "水"]

/-- `_is_valid_dish_name`: the ordered rejection rules. -/
def isValidDishName (s : String) : Bool :=
  let cs := s.data
  if ['入', 'り'].isPrefixOf cs then false
  else if (match cs with | 'の' :: c2 :: _ => isHiragana c2 | _ => false) then false
  else if ¬ cs.isEmpty && cs.length ≤ 2 && cs.all isHiragana then false
  else if cs.any (fun c => c = '【' ∨ c = '☆') then false
  else if s = "炒め" then false
  else if (match cs with | ')' :: _ => true | _ => false) then false
  else if 15 < cs.length then false
  else if cs.length ≤ 2 && ¬ (validShortNames.contains s) then false
  else true

/-- `_categorize_dish_advanced`. -/
def categorizeDishAdvanced (s : String) : String :=
  if mainFoodPatterns.any (fun p => substrB p s) then "主食"
  else if soupPatterns.any (fun p => substrB p s) then "汁物"
  else if drinkPatterns.any (fun p => substrB p s) then "飲み物"
  else "おかず"

/-- `_extract_individual_dishes`: direct full-string match first, then the
literal pattern list, then the basic single items. -/
def extractIndividualDishes (line : String) : List String :=
  if line ∈ directDishes then [line]
  else
    let d1 := dishPatterns.filter (fun p => substrB p line)
    basicItems.foldl
      (fun ds it => if substrB it line = true ∧ it ∉ ds then ds ++ [it] else ds) d1

/-- Inner loop of `_should_include_dish` over the `existing_dishes` set
(iterated in insertion order).  A `discard` of an element that is a strict
substring of `dish` makes the next call of the set iterator raise
`RuntimeError`, so that branch returns the error; after a completed loop the
`problematic_patterns` check runs. -/
def shouldIncludeLoop (dish : String) : List String → Except PyErr Bool
  | [] => if dish ∈ problematicPatterns then .ok false else .ok true
  | e :: rest =>
    if dish ≠ e ∧ substrB dish e = true then .ok false
    else if e ≠ dish ∧ substrB e dish = true then .error .runtimeError
    else shouldIncludeLoop dish rest

/-- `_should_include_dish`: the special `ご飯` pre-pass, then the
substring/superstring loop, then the problematic-pattern filter. -/
def shouldIncludeDish (dish : String) (found : List String) : Except PyErr Bool :=
  if dish = "ご飯" ∧ ∃ e ∈ found, substrB "ご飯" e = true ∧ e ≠ "ご飯" then .ok false
  else shouldIncludeLoop dish found

/-- Length of the maximal leading run of `[あ-ん一-龯ー・]` characters. -/
def takeClassRun (cs : List Char) : Nat := (cs.takeWhile classChar).length

/-- Greedy backtracking of `[class]+` before a literal-alternation suffix:
try consuming `k` class characters, largest `k` first, and at each `k` try the
alternatives in order; returns the total match length. -/
def greedyK (cs : List Char) (sufs : List (List Char)) : Nat → Option Nat
  | 0 => none
  | k + 1 =>
    match sufs.find? (fun t => t.isPrefixOf (cs.drop (k + 1))) with
    | some t => some (k + 1 + t.length)
    | none => greedyK cs sufs k

/-- Match length of `[class]+(?:alt1|alt2|...)` anchored at the head. -/
def classSufMatchAt (cs : List Char) (sufs : List (List Char)) : Option Nat :=
  greedyK cs sufs (takeClassRun cs)

/-- `re.findall` scan for a `[class]+(?:...)` pattern: leftmost match, then
continue after the match (fuelled by the text length). -/
def scanClassSuf (sufs : List (List Char)) : Nat → List Char → List (List Char)
  | 0, _ => []
  | _, [] => []
  | fuel + 1, c :: rest =>
    match classSufMatchAt (c :: rest) sufs with
    | some n => ((c :: rest).take n) :: scanClassSuf sufs fuel ((c :: rest).drop n)
    | none => scanClassSuf sufs fuel rest

/-- `re.findall` scan for a plain literal alternation pattern. -/
def scanLits (lits : List (List Char)) : Nat → List Char → List (List Char)
  | 0, _ => []
  | _, [] => []
  | fuel + 1, c :: rest =>
    match lits.find? (fun t => t.isPrefixOf (c :: rest)) with
    | some t => t :: scanLits lits fuel ((c :: rest).drop t.length)
    | none => scanLits lits fuel rest

/-- Suffix alternation of the first pattern of `_extract_dishes_by_pattern`. -/
def pat1Sufs : List (List Char) :=
  ["和え", "炒め", "焼き", "煮", "揚げ", "漬け", "茹で", "蒸し"].map String.data

/-- Suffix alternation of the second pattern (`…ご飯|…ライス`). -/
def pat2Sufs : List (List Char) := ["ご飯", "ライス"].map String.data

/-- Suffix alternation of the third pattern (`…汁|…スープ`). -/
def pat3Sufs : List (List Char) := ["汁", "スープ"].map String.data

/-- Suffix of the fourth pattern (`…サラダ`). -/
def pat4Sufs : List (List Char) := ["サラダ"].map String.data

/-- Literal alternation of the fifth pattern. -/
def pat5Lits : List (List Char) :=
  ["親子丼", "ハヤシライス", "肉豆腐", "豆腐ステーキ"].map String.data

/-- All `findall` results of the five patterns, in pattern order. -/
def patternMatches (cs : List Char) : List (List Char) :=
  scanClassSuf pat1Sufs cs.length cs ++ scanClassSuf pat2Sufs cs.length cs ++
  scanClassSuf pat3Sufs cs.length cs ++ scanClassSuf pat4Sufs cs.length cs ++
  scanLits pat5Lits cs.length cs

/-- `_extract_dishes_by_pattern`: keep matches of length between 3 and 19 that
contain none of the invalid keywords. -/
def extractDishesByPattern (s : String) : List String :=
  (patternMatches s.data).foldl
    (fun ds m =>
      let d := String.mk m
      if 2 < d.length ∧ d.length < 20 ∧ invalidKeywords.all (fun k => ¬ substrB k d) then
        ds ++ [d]
      else ds) []

/-- One candidate dish inside the per-part loop of `_parse_menu_text_advanced`
(the variant that strips the dish and requires length > 1). -/
def addFoundPart (st : List MenuItem × List String) (dish : String) :
    Except PyErr (List MenuItem × List String) :=
  let clean := pyStrip dish
  if 1 < clean.length ∧ clean ∉ st.2 then
    if isValidDishName clean then
      match shouldIncludeDish clean st.2 with
      | .error e => .error e
      | .ok true => .ok (st.1 ++ [⟨clean, categorizeDishAdvanced clean⟩], st.2 ++ [clean])
      | .ok false => .ok st
    else .ok st
  else .ok st

/-- One candidate dish inside the pattern-pass loop of
`_parse_menu_text_advanced` (no strip, no length guard). -/
def addFoundPat (st : List MenuItem × List String) (dish : String) :
    Except PyErr (List MenuItem × List String) :=
  if dish ∉ st.2 ∧ isValidDishName dish = true then
    match shouldIncludeDish dish st.2 with
    | .error e => .error e
    | .ok true => .ok (st.1 ++ [⟨dish, categorizeDishAdvanced dish⟩], st.2 ++ [dish])
    | .ok false => .ok st
  else .ok st

/-- `Except`-threading fold used for the Python `for` loops. -/
def foldE (f : σ → α → Except PyErr σ) : σ → List α → Except PyErr σ
  | s, [] => .ok s
  | s, a :: l =>
    match f s a with
    | .ok s2 => foldE f s2 l
    | .error e => .error e

/-- One part of the split text: strip, skip short parts and skip keywords,
then run all dishes extracted from the part. -/
def processPart (st : List MenuItem × List String) (part : List Char) :
    Except PyErr (List MenuItem × List String) :=
  let p := String.mk (pyStripChars part)
  if p.length < 2 then .ok st
  else if p ∈ skipKeywords then .ok st
  else foldE addFoundPart st (extractIndividualDishes p)

/-- `_parse_menu_text_advanced`: whitespace cleanup, split, per-part
extraction, then the global pattern pass. -/
def parseMenuTextAdvanced (text : String) : Except PyErr (List MenuItem) :=
  let t := pyStrip (collapseWs text)
  match foldE processPart ([], []) (splitSeps t) with
  | .error e => .error e
  | .ok st1 =>
    match foldE addFoundPat st1 (extractDishesByPattern t) with
    | .error e => .error e
    | .ok st2 => .ok st2.1

/-- `nutrition_keywords['red']`. -/
def redKeywords : List String :=
  ["肉", "魚", "卵", "豆", "乳", "チーズ", "味噌", "鶏", "豚", "牛", "鮭", "えび", "いわし", "さば"]

/-- `nutrition_keywords['yellow']`. -/
def yellowKeywords : List String :=
  ["米", "麦", "パン", "麺", "芋", "油", "砂糖", "小麦", "バター"]

/-- `nutrition_keywords['green']`. -/
def greenKeywords : List String :=
  ["野菜", "キャベツ", "人参", "玉ねぎ", "大根", "小松菜", "昆布", "わかめ", "しいたけ", "ねぎ"]

/-- Keyword collection loop of `_extract_nutrition_advanced`: append each
keyword occurring in the text, once, in list order. -/
def collectKeywords (kws : List String) (text : String) : List String :=
  kws.foldl (fun acc k => if substrB k text = true ∧ k ∉ acc then acc ++ [k] else acc) []

/-- `_extract_nutrition_advanced`: keyword scan per group, default labels for
empty groups, then truncation to 4/2/6. -/
def extractNutritionAdvanced (text : String) : NutritionInfo :=
  let redItems := collectKeywords redKeywords text
  let yellowItems := collectKeywords yellowKeywords text
  let greenItems := collectKeywords greenKeywords text
  let redItems := if redItems = [] then ["タンパク質食品"] else redItems
  let yellowItems := if yellowItems = [] then ["炭水化物"] else yellowItems
  let greenItems := if greenItems = [] then ["野菜類"] else greenItems
  ⟨redItems.take 4, yellowItems.take 2, greenItems.take 6⟩

/-- Separator class of `_parse_nutrition_text` (`[,、\s\n　]+`). -/
def nutSep (c : Char) : Bool := c = ',' ∨ c = '、' ∨ pyWs c

/-- Maximal runs of non-separator characters, with the current run as
accumulator (kept in reverse). -/
def splitRunsAux : List Char → List Char → List (List Char)
  | [], cur => if cur.isEmpty then [] else [cur.reverse]
  | c :: rest, cur =>
    if nutSep c then
      if cur.isEmpty then splitRunsAux rest [] else cur.reverse :: splitRunsAux rest []
    else splitRunsAux rest (c :: cur)

/-- `_parse_nutrition_text`: split the stripped cell on separator runs and keep
the nonempty items. -/
def parseNutritionText (s : String) : List String :=
  if s = "" then []
  else (splitRunsAux (pyStripChars s.data) []).map String.mk

/-- Column detection of `_extract_nutrition_from_table_row`: the `elif` chain
with assignment means the **last** matching header wins for each group. -/
def findNutCols (headers : List String) : Option Nat × Option Nat × Option Nat :=
  (headers.enum).foldl
    (fun st h =>
      if substrB "あか" h.2 then (some h.1, st.2.1, st.2.2)
      else if substrB "きいろ" h.2 then (st.1, some h.1, st.2.2)
      else if substrB "みどり" h.2 then (st.1, st.2.1, some h.1)
      else st)
    (none, none, none)

/-- Items of one nutrition column: the column must exist, be inside the row,
and hold a truthy cell. -/
def nutColItems (row : List (Option String)) : Option Nat → List String
  | none => []
  | some i =>
    match row.get? i with
    | some (some s) => if s ≠ "" then parseNutritionText (pyStrip s) else []
    | _ => []

/-- `_extract_nutrition_from_table_row`: per-column extraction with the
default labels used only when all three groups are empty. -/
def extractNutritionFromTableRow (row : List (Option String)) (headers : List String) :
    NutritionInfo :=
  let cols := findNutCols headers
  let redItems := nutColItems row cols.1
  let yellowItems := nutColItems row cols.2.1
  let greenItems := nutColItems row cols.2.2
  if redItems = [] ∧ yellowItems = [] ∧ greenItems = [] then
    ⟨["肉・魚・卵"], ["ご飯・パン"], ["野菜・果物"]⟩
  else ⟨redItems, yellowItems, greenItems⟩

/-- `_sort_menu_items_by_priority`: partition into staple dishes and others,
keeping order, staples first. -/
def mainDishKeywords : List String :=
  ["ご飯", "パン", "麦ご飯", "ふりかけご飯", "きのこご飯", "夕焼けご飯", "ロールパン"]

/-- Staple test of `_sort_menu_items_by_priority`. -/
def isMainDish (it : MenuItem) : Bool := mainDishKeywords.any (fun k => substrB k it.name)

/-- `_sort_menu_items_by_priority`. -/
def sortMenuItemsByPriority (menuItems : List MenuItem) : List MenuItem :=
  let p := menuItems.foldl
    (fun (st : List MenuItem × List MenuItem) it =>
      if isMainDish it then (st.1 ++ [it], st.2) else (st.1, st.2 ++ [it]))
    ([], [])
  p.1 ++ p.2

/-- A positioned word of a page (`page.extract_words()` entry); coordinates
are modelled as integers. -/
structure Word where
  text : String
  x0 : Int
  y0 : Int
  x1 : Int
  y1 : Int
deriving DecidableEq, Repr

/-- One entry of `structure['date_positions']`. -/
structure DatePos where
  date : Nat
  day : String
  x0 : Int
  y0 : Int
  x1 : Int
  y1 : Int
deriving DecidableEq, Repr

/-- One entry of `structure['pages']` (only the fields the pipeline reads). -/
structure PageInfo where
  text : String
  words : List Word
deriving DecidableEq, Repr

/-- The document structure consumed by `extract_menu_data_from_structure`. -/
structure PStructure where
  pages : List PageInfo
  tables : List (List (List (Option String)))
  datePositions : List DatePos
deriving DecidableEq, Repr

/-- `_find_date_positions` on one word: the full-string regex
`^(\d{1,2})([月火水木金土日])$` on the stripped word text. -/
def wordDatePos (w : Word) : Option DatePos :=
  match pyStripChars w.text.data with
  | [a, b] =>
    if a.isDigit ∧ weekdayChar b = true then
      some ⟨digitVal a, String.mk [b], w.x0, w.y0, w.x1, w.y1⟩
    else none
  | [a, b, c] =>
    if a.isDigit ∧ b.isDigit ∧ weekdayChar c = true then
      some ⟨10 * digitVal a + digitVal b, String.mk [c], w.x0, w.y0, w.x1, w.y1⟩
    else none
  | _ => none

/-- `analyze_pdf_structure` restricted to what the pipeline reads: the pages
and tables as extracted, and the date positions accumulated per page. -/
def mkStructure (pages : List PageInfo) (tables : List (List (List (Option String)))) :
    PStructure :=
  ⟨pages, tables, pages.flatMap (fun p => p.words.filterMap wordDatePos)⟩

/-- Scan the rest of a line (stopping at a newline) for a character. -/
def seekCharInLine (target : Char) : List Char → Option (List Char)
  | [] => none
  | c :: rest =>
    if c = '\n' then none
    else if c = target then some rest
    else seekCharInLine target rest

/-- Match of `(\d+)月.*献.*立.*表` anchored at the head: a maximal digit run,
`月`, then `献`, `立`, `表` in order on the same line. -/
def monthAt (cs : List Char) : Option Nat :=
  let ds := cs.takeWhile Char.isDigit
  if ds.isEmpty then none
  else
    match cs.drop ds.length with
    | '月' :: rest =>
      match seekCharInLine '献' rest with
      | none => none
      | some r1 =>
        match seekCharInLine '立' r1 with
        | none => none
        | some r2 =>
          match seekCharInLine '表' r2 with
          | none => none
          | some _ => some (digitsVal ds)
    | _ => none

/-- `re.search` of the month pattern: leftmost match position. -/
def findMonth : List Char → Option Nat
  | [] => none
  | c :: rest =>
    match monthAt (c :: rest) with
    | some m => some m
    | none => findMonth rest

/-- `_extract_month_from_structure`: first page whose text matches, else the
sentinel `"00"`. -/
def extractMonthFromPages : List PageInfo → String
  | [] => "00"
  | p :: rest =>
    match findMonth p.text.data with
    | some m => fmt02Nat m
    | none => extractMonthFromPages rest

/-- Monadic concatenation: the accumulation pattern of every strategy loop. -/
def concatE (f : α → Except PyErr (List β)) : List α → Except PyErr (List β)
  | [] => .ok []
  | a :: l =>
    match f a with
    | .error e => .error e
    | .ok xs =>
      match concatE f l with
      | .error e => .error e
      | .ok ys => .ok (xs ++ ys)

/-- Header normalisation of `_extract_from_tables`:
`cell.strip() if cell else ''`. -/
def headerCell : Option String → String
  | none => ""
  | some s => pyStrip s

/-- Headers of a table (empty for an empty table). -/
def tableHeaders (tbl : List (List (Option String))) : List String :=
  match tbl with
  | [] => []
  | hdr :: _ => hdr.map headerCell

/-- Cell access of the data-row loop:
`row[c].strip() if row[c] else ''`, with a missing index yielding `''`. -/
def rowCell (row : List (Option String)) (i : Nat) : String :=
  match row.get? i with
  | some (some s) => pyStrip s
  | _ => ""

/-- One data row of a qualifying menu table.  The row-length guard and the
truthiness guard skip silently; `int` failure (`ValueError`) is caught and
skips; dish parsing may raise and is not caught. -/
def processTableRow (month : String) (headers : List String)
    (dateCol dayCol menuCol : Nat) (row : List (Option String)) :
    Except PyErr (List DailyMenu) :=
  if row.length ≤ max dateCol (max dayCol menuCol) then .ok []
  else
    let dateCell := rowCell row dateCol
    let dayCell := rowCell row dayCol
    let menuCell := rowCell row menuCol
    if dateCell ≠ "" ∧ dayCell ≠ "" ∧ menuCell ≠ "" then
      match pyInt dateCell with
      | none => .ok []
      | some date =>
        match parseMenuTextAdvanced menuCell with
        | .error e => .error e
        | .ok menuItems =>
          let nutrition := extractNutritionFromTableRow row headers
          if menuItems ≠ [] then
            .ok [⟨month ++ "/" ++ fmt02Int date ++ "(" ++ dayCell ++ ")",
                  dayCell, menuItems, nutrition⟩]
          else .ok []
    else .ok []

/-- One table of `_extract_from_tables`: needs at least two rows and the three
exact header labels. -/
def extractFromTable (month : String) (tbl : List (List (Option String))) :
    Except PyErr (List DailyMenu) :=
  if tbl.length < 2 then .ok []
  else
    let headers := tableHeaders tbl
    if "日" ∈ headers ∧ "曜" ∈ headers ∧ "献立名" ∈ headers then
      concatE
        (processTableRow month headers (headers.indexOf "日") (headers.indexOf "曜")
          (headers.indexOf "献立名"))
        tbl.tail
    else .ok []

/-- `_extract_from_tables`. -/
def extractFromTables (tables : List (List (List (Option String)))) (month : String) :
    Except PyErr (List DailyMenu) :=
  concatE (extractFromTable month) tables

/-- `_get_nearby_text`: words whose origin lies within the 100-unit window in
both axes, joined with single spaces. -/
def getNearbyText (words : List Word) (dp : DatePos) : String :=
  String.intercalate " "
    ((words.filter (fun w => (w.x0 - dp.x0).natAbs < 100 ∧ (w.y0 - dp.y0).natAbs < 100)).map
      Word.text)

/-- One date position inside the page loop of `_extract_from_positions`. -/
def processDatePos (month : String) (words : List Word) (dp : DatePos) :
    Except PyErr (List DailyMenu) :=
  if dp.date ≤ 31 then
    let nearbyText := getNearbyText words dp
    if nearbyText ≠ "" then
      match parseMenuTextAdvanced nearbyText with
      | .error e => .error e
      | .ok menuItems =>
        let nutrition := extractNutritionAdvanced nearbyText
        if menuItems ≠ [] then
          .ok [⟨month ++ "/" ++ fmt02Nat dp.date ++ "(" ++ dp.day ++ ")",
                dp.day, menuItems, nutrition⟩]
        else .ok []
    else .ok []
  else .ok []

/-- `_extract_from_positions`: for every page, the whole global date-position
list is replayed against that page's words. -/
def extractFromPositions (pages : List PageInfo) (datePositions : List DatePos)
    (month : String) : Except PyErr (List DailyMenu) :=
  concatE (fun (p : PageInfo) => concatE (processDatePos month p.words) datePositions) pages

/-- A date-token match of `(\d{1,2})\s*([月火水木金土日])` found in the full
text: value, weekday, start offset and end offset. -/
structure DTok where
  val : Nat
  day : Char
  start : Nat
  tEnd : Nat
deriving DecidableEq, Repr

/-- The `\s*([月火水木金土日])` tail: skip the whitespace run, then require a
weekday character; returns the run length and the weekday. -/
def wsWeekday (cs : List Char) : Option (Nat × Char) :=
  match (cs.dropWhile pyWs).head? with
  | some c => if weekdayChar c then some ((cs.takeWhile pyWs).length, c) else none
  | none => none

/-- One-digit branch of the token match at the head. -/
def oneDigitTok (c0 : Char) (rest : List Char) : Option (Nat × Char × Nat) :=
  match wsWeekday rest with
  | some (w, wd) => some (digitVal c0, wd, 1 + w + 1)
  | none => none

/-- Match of `(\d{1,2})\s*([月火水木金土日])` anchored at the head, with the
greedy two-digit attempt first. -/
def dateTokAt : List Char → Option (Nat × Char × Nat)
  | [] => none
  | [c0] => if c0.isDigit then oneDigitTok c0 [] else none
  | c0 :: c1 :: rest2 =>
    if c0.isDigit then
      if c1.isDigit then
        match wsWeekday rest2 with
        | some (w, wd) => some (10 * digitVal c0 + digitVal c1, wd, 2 + w + 1)
        | none => oneDigitTok c0 (c1 :: rest2)
      else oneDigitTok c0 (c1 :: rest2)
    else none

/-- `re.finditer` scan for the date-token pattern, carrying the absolute
offset (fuelled by the text length). -/
def dateTokScanF : Nat → Nat → List Char → List DTok
  | 0, _, _ => []
  | _, _, [] => []
  | fuel + 1, pos, c :: rest =>
    match dateTokAt (c :: rest) with
    | some (v, wd, len) =>
      ⟨v, wd, pos, pos + len⟩ :: dateTokScanF fuel (pos + len) ((c :: rest).drop len)
    | none => dateTokScanF fuel (pos + 1) rest

/-- All date tokens of the full text. -/
def textTokens (cs : List Char) : List DTok := dateTokScanF cs.length 0 cs

/-- The tokens kept by `_extract_from_text_analysis` (`1 <= date <= 31`). -/
def keptTokens (cs : List Char) : List DTok :=
  (textTokens cs).filter (fun t => 1 ≤ t.val ∧ t.val ≤ 31)

/-- Pair every token with the start of the next one (the text length for the
last token). -/
def withNext (len : Nat) : List DTok → List (DTok × Nat)
  | [] => []
  | [t] => [(t, len)]
  | t :: t2 :: rest => (t, t2.start) :: withNext len (t2 :: rest)

/-- One kept token of the text strategy: the menu span runs from the end of
this token to the start of the next. -/
def processTok (month : String) (cs : List Char) (p : DTok × Nat) :
    Except PyErr (List DailyMenu) :=
  let t := p.1
  let menuText := String.mk ((cs.drop t.tEnd).take (p.2 - t.tEnd))
  match parseMenuTextAdvanced menuText with
  | .error e => .error e
  | .ok menuItems =>
    let nutrition := extractNutritionAdvanced menuText
    if menuItems ≠ [] then
      .ok [⟨month ++ "/" ++ fmt02Nat t.val ++ "(" ++ String.mk [t.day] ++ ")",
            String.mk [t.day], menuItems, nutrition⟩]
    else .ok []

/-- `_extract_from_text_analysis`: join all page texts with newlines, scan for
date tokens, keep days 1–31, and parse the span up to the next token. -/
def extractFromTextAnalysis (pages : List PageInfo) (month : String) :
    Except PyErr (List DailyMenu) :=
  let cs := (String.intercalate "\n" (pages.map PageInfo.text)).data
  concatE (processTok month cs) (withNext cs.length (keptTokens cs))

/-- `extract_menu_data_from_structure`: month detection, then the three
strategies with first-non-empty-wins fallback (the table strategy runs only
when the structure holds at least one table). -/
def extract_menu_data_from_structure (s : PStructure) : Except PyErr (List DailyMenu) :=
  let month := extractMonthFromPages s.pages
  match (if s.tables ≠ [] then extractFromTables s.tables month else .ok []) with
  | .error e => .error e
  | .ok t =>
    if t ≠ [] then .ok t
    else
      match extractFromPositions s.pages s.datePositions month with
      | .error e => .error e
      | .ok p =>
        if p ≠ [] then .ok p
        else extractFromTextAnalysis s.pages month

/-- Reference pipeline following the specification text: each strategy
function is consulted in order and the first non-empty result wins. -/
def pipelineSpec (s : PStructure) : Except PyErr (List DailyMenu) :=
  let month := extractMonthFromPages s.pages
  match extractFromTables s.tables month with
  | .error e => .error e
  | .ok t =>
    if t ≠ [] then .ok t
    else
      match extractFromPositions s.pages s.datePositions month with
      | .error e => .error e
      | .ok p =>
        if p ≠ [] then .ok p
        else extractFromTextAnalysis s.pages month

/-- Day-of-month component of a label, per the claim: some `d` in the given
range whose two-digit rendering fills the day slot of the label. -/
def labelDayIn (lo hi : Nat) (month : String) (m : DailyMenu) : Prop :=
  ∃ d ∈ Finset.Icc lo hi,
    m.date = month ++ "/" ++ fmt02Nat d ++ "(" ++ m.day_of_week ++ ")"

/-- Token test of claim C7 as stated: one or two digits immediately followed
by a weekday character at position `i` of the concatenated text. -/
def adjTokenAt (cs : List Char) (i : Nat) : Bool :=
  (match cs.get? i, cs.get? (i + 1) with
   | some a, some b => a.isDigit && weekdayChar b
   | _, _ => false) ||
  (match cs.get? i, cs.get? (i + 1), cs.get? (i + 2) with
   | some a, some b, some c => a.isDigit && b.isDigit && weekdayChar c
   | _, _, _ => false)

/-- Whether a date token in the sense of claim C7 (immediate adjacency, no
whitespace allowed) occurs anywhere in the text. -/
def hasAdjToken (cs : List Char) : Bool := (List.range cs.length).any (adjTokenAt cs)

/-- Declarative shape of a date token, following the amended claim: the text
decomposes into a prefix, one or two digits, a whitespace run, and a weekday
character, with offsets and value read off that decomposition. -/
def TokenShape (cs : List Char) (t : DTok) : Prop :=
  ∃ pre ds ws rest, ∃ wd : Char,
    cs = pre ++ ds ++ ws ++ wd :: rest ∧
    pre.length = t.start ∧
    t.tEnd = t.start + ds.length + ws.length + 1 ∧
    1 ≤ ds.length ∧ ds.length ≤ 2 ∧ (∀ c ∈ ds, c.isDigit = true) ∧
    (∀ c ∈ ws, pyWs c = true) ∧ weekdayChar wd = true ∧
    t.val = digitsVal ds ∧ t.day = wd

/-- Dish-list invariant of claim C1: pairwise distinct names with no strict
substring relation in either direction. -/
def NamesSubFree (names : List String) : Prop :=
  List.Pairwise (fun a b => a ≠ b ∧ substrB a b = false ∧ substrB b a = false) names

/-- Invariant carried by the `(menu_items, found_dishes)` state of
`_parse_menu_text_advanced`: the found set lists exactly the recorded names,
and those names satisfy the C1 substring-freedom property. -/
def InvSt (st : List MenuItem × List String) : Prop :=
  st.2 = st.1.map MenuItem.name ∧ NamesSubFree st.2

/-- Fixture: a qualifying menu table with one well-formed data row. -/
def tblGood : List (List (Option String)) :=
  [[some "日", some "曜", some "献立名"], [some "3", some "月", some "ご飯"]]

/-- Fixture: a qualifying menu table whose only data row has an unparsable
date cell. -/
def tblBadDate : List (List (Option String)) :=
  [[some "日", some "曜", some "献立名"], [some "x", some "月", some "ご飯"]]

/-- Fixture: a qualifying menu table with day-of-month 99. -/
def tbl99 : List (List (Option String)) :=
  [[some "日", some "曜", some "献立名"], [some "99", some "月", some "ご飯"]]

/-- Fixture: structure whose only table qualifies but yields no day, while the
page text feeds the text strategy. -/
def structTableBad : PStructure := mkStructure [⟨"2月ご飯", []⟩] [tblBadDate]

/-- Fixture: structure whose table strategy succeeds. -/
def structTableGood : PStructure := mkStructure [] [tblGood]

/-- Fixture: the default nutrition groups of the table-row extractor. -/
def defaultTableNutrition : NutritionInfo :=
  ⟨["肉・魚・卵"], ["ご飯・パン"], ["野菜・果物"]⟩

/-- Fixture: the default nutrition groups of the free-text extractor. -/
def defaultTextNutrition : NutritionInfo :=
  ⟨["タンパク質食品"], ["炭水化物"], ["野菜類"]⟩

theorem concatE_mem {α β} {f : α → Except PyErr (List β)} :
    ∀ {l : List α} {xs : List β}, concatE f l = .ok xs →
      ∀ x ∈ xs, ∃ a ∈ l, ∃ ys, f a = .ok ys ∧ x ∈ ys := by
  intro l
  induction l with
  | nil =>
    intro xs h x hx
    simp only [concatE] at h
    cases h
    simp at hx
  | cons a l ih =>
    intro xs h x hx
    simp only [concatE] at h
    split at h
    · exact absurd h (by simp)
    · rename_i ys hfa
      split at h
      · exact absurd h (by simp)
      · rename_i zs hrec
        cases h
        rcases List.mem_append.mp hx with hy | hz
        · exact ⟨a, List.mem_cons_self a l, ys, hfa, hy⟩
        · obtain ⟨b, hb, ws, hws, hz2⟩ := ih hrec x hz
          exact ⟨b, List.mem_cons_of_mem a hb, ws, hws, hz2⟩

theorem concatE_skip {α β} {f : α → Except PyErr (List β)} {a : α} (ha : f a = .ok []) :
    ∀ (l1 l2 : List α), concatE f (l1 ++ a :: l2) = concatE f (l1 ++ l2) := by
  intro l1
  induction l1 with
  | nil =>
    intro l2
    simp only [List.nil_append, concatE, ha]
    cases h : concatE f l2 <;> simp
  | cons x l1 ih =>
    intro l2
    simp only [List.cons_append, concatE, List.append_eq, ih]

theorem foldlPartition (l : List MenuItem) : ∀ a b,
    l.foldl
      (fun (st : List MenuItem × List MenuItem) it =>
        if isMainDish it then (st.1 ++ [it], st.2) else (st.1, st.2 ++ [it])) (a, b) =
      (a ++ l.filter isMainDish, b ++ l.filter (fun it => !isMainDish it)) := by
  induction l with
  | nil => intro a b; simp
  | cons x xs ih =>
    intro a b
    by_cases h : isMainDish x <;>
      simp [List.foldl_cons, List.filter_cons, h, ih]

/-- C9: the staple-priority reorder is a stable partition: the output is the
matching dishes in input order followed by the non-matching dishes in input
order, hence a permutation of the input with all staple-keyword dishes first. -/
theorem spec_c9_stable_partition (l : List MenuItem) :
    sortMenuItemsByPriority l =
      l.filter isMainDish ++ l.filter (fun it => !isMainDish it) ∧
    (sortMenuItemsByPriority l).Perm l := by
  have h := foldlPartition l [] []
  refine ⟨by simp [sortMenuItemsByPriority, h], ?_⟩
  rw [sortMenuItemsByPriority, h]
  simpa using List.filter_append_perm isMainDish l

theorem collectKeywords_of_none {text : String} :
    ∀ {kws : List String} (acc : List String), (∀ k ∈ kws, substrB k text = false) →
      kws.foldl (fun acc k => if substrB k text = true ∧ k ∉ acc then acc ++ [k] else acc) acc
        = acc := by
  intro kws
  induction kws with
  | nil => intro acc _; rfl
  | cons k kws ih =>
    intro acc hall
    have hk : substrB k text = false := hall k (List.mem_cons_self k kws)
    simp only [List.foldl_cons, hk]
    rw [if_neg (by simp [hk])]
    exact ih acc (fun k2 hk2 => hall k2 (List.mem_cons_of_mem k hk2))

theorem take_ne_nil_of_pos {α} (l : List α) (n : Nat) (hl : l ≠ []) (hn : 0 < n) :
    l.take n ≠ [] := by
  cases l with
  | nil => exact absurd rfl hl
  | cons x xs =>
    cases n with
    | zero => exact absurd hn (by simp)
    | succ m => simp

theorem nutAdv_ne (text : String) :
    (extractNutritionAdvanced text).red ≠ [] ∧
    (extractNutritionAdvanced text).yellow ≠ [] ∧
    (extractNutritionAdvanced text).green ≠ [] := by
  unfold extractNutritionAdvanced
  refine ⟨?_, ?_, ?_⟩ <;>
  · simp only
    split <;> apply take_ne_nil_of_pos <;> simp_all

/-- C5: free-text nutrition extraction always yields three non-empty groups,
capped at 4/2/6 items, and a group with no keyword hit is exactly its default
placeholder label. -/
theorem spec_c5_nutrition_caps (text : String) :
    (extractNutritionAdvanced text).red ≠ [] ∧
    (extractNutritionAdvanced text).red.length ≤ 4 ∧
    (extractNutritionAdvanced text).yellow ≠ [] ∧
    (extractNutritionAdvanced text).yellow.length ≤ 2 ∧
    (extractNutritionAdvanced text).green ≠ [] ∧
    (extractNutritionAdvanced text).green.length ≤ 6 ∧
    ((∀ k ∈ redKeywords, substrB k text = false) →
      (extractNutritionAdvanced text).red = ["タンパク質食品"]) ∧
    ((∀ k ∈ yellowKeywords, substrB k text = false) →
      (extractNutritionAdvanced text).yellow = ["炭水化物"]) ∧
    ((∀ k ∈ greenKeywords, substrB k text = false) →
      (extractNutritionAdvanced text).green = ["野菜類"]) := by
  obtain ⟨h1, h2, h3⟩ := nutAdv_ne text
  refine ⟨h1, ?_, h2, ?_, h3, ?_, ?_, ?_, ?_⟩
  · exact List.length_take_le 4 _
  · exact List.length_take_le 2 _
  · exact List.length_take_le 6 _
  all_goals
    intro hnone
    simp [extractNutritionAdvanced, collectKeywords, collectKeywords_of_none [] hnone]

/-- Witness for C5 at the empty text: all three groups fall back to their
default placeholder labels. -/
theorem spec_c5_nutrition_caps_witness :
    (extractNutritionAdvanced "").red = ["タンパク質食品"] ∧
    (extractNutritionAdvanced "").yellow = ["炭水化物"] ∧
    (extractNutritionAdvanced "").green = ["野菜類"] :=
  ⟨(spec_c5_nutrition_caps "").2.2.2.2.2.2.1 (by decide),
   (spec_c5_nutrition_caps "").2.2.2.2.2.2.2.1 (by decide),
   (spec_c5_nutrition_caps "").2.2.2.2.2.2.2.2 (by decide)⟩

/-- C6 counterexample: a structured nutrition row whose header matches only
the red-group marker produces a `NutritionInfo` with an empty yellow group
(and an empty green group), refuting the all-groups-non-empty claim. -/
theorem spec_c6_counterexample :
    (extractNutritionFromTableRow [some "肉"] ["あか"]).red = ["肉"] ∧
    (extractNutritionFromTableRow [some "肉"] ["あか"]).yellow = [] ∧
    (extractNutritionFromTableRow [some "肉"] ["あか"]).green = [] := by
  refine ⟨rfl, rfl, rfl⟩

/-- C6 amended: the free-text entry point always yields three non-empty
groups; the structured-row entry point guarantees only that at least one group
is non-empty (all three are repopulated with defaults exactly when all three
columns came up empty). -/
theorem spec_c6_amended :
    (∀ text, (extractNutritionAdvanced text).red ≠ [] ∧
      (extractNutritionAdvanced text).yellow ≠ [] ∧
      (extractNutritionAdvanced text).green ≠ []) ∧
    (∀ (row : List (Option String)) (headers : List String),
      (extractNutritionFromTableRow row headers).red ≠ [] ∨
      (extractNutritionFromTableRow row headers).yellow ≠ [] ∨
      (extractNutritionFromTableRow row headers).green ≠ []) := by
  refine ⟨nutAdv_ne, ?_⟩
  intro row headers
  by_cases hall : nutColItems row (findNutCols headers).1 = [] ∧
      nutColItems row (findNutCols headers).2.1 = [] ∧
      nutColItems row (findNutCols headers).2.2 = []
  · left
    simp [extractNutritionFromTableRow, hall]
  · have hv : extractNutritionFromTableRow row headers =
        ⟨nutColItems row (findNutCols headers).1, nutColItems row (findNutCols headers).2.1,
         nutColItems row (findNutCols headers).2.2⟩ := by
      simp [extractNutritionFromTableRow, hall]
    rw [hv]
    push_neg at hall
    by_cases hr : nutColItems row (findNutCols headers).1 = []
    · by_cases hy : nutColItems row (findNutCols headers).2.1 = []
      · exact Or.inr (Or.inr (hall hr hy))
      · exact Or.inr (Or.inl hy)
    · exact Or.inl hr

theorem processTableRow_skip_of_pyInt_none {month : String} {headers : List String}
    {dc wc mc : Nat} {row : List (Option String)} (h : pyInt (rowCell row dc) = none) :
    processTableRow month headers dc wc mc row = .ok [] := by
  simp only [processTableRow]
  split
  · rfl
  · split
    · simp [h]
    · rfl

/-- C10: a data row is skipped silently — no day emitted, no error — whenever
it is too short for the required column indices or its date, weekday or
menu-name cell normalises to the empty string (missing, `None`, or
whitespace-only). -/
theorem spec_c10_row_guards (month : String) (headers : List String)
    (dateCol dayCol menuCol : Nat) (row : List (Option String))
    (h : row.length ≤ max dateCol (max dayCol menuCol) ∨ rowCell row dateCol = "" ∨
      rowCell row dayCol = "" ∨ rowCell row menuCol = "") :
    processTableRow month headers dateCol dayCol menuCol row = .ok [] := by
  simp only [processTableRow]
  rcases h with h | h | h | h
  · rw [if_pos h]
  all_goals
    split
    · rfl
    · rw [if_neg (by simp [h])]

/-- Witness for C10: a whitespace-only date cell makes the row vanish without
an error. -/
theorem spec_c10_row_guards_witness :
    processTableRow "00" ["日", "曜", "献立名"] 0 1 2
      [some " ", some "月", some "ご飯"] = .ok [] :=
  spec_c10_row_guards "00" ["日", "曜", "献立名"] 0 1 2
    [some " ", some "月", some "ご飯"] (Or.inr (Or.inl (by decide)))

/-- C8: a data row whose date cell fails integer parsing contributes no day
and no error, and deleting it from the row list leaves the table result
unchanged — every other row is still processed. -/
theorem spec_c8_bad_date_row_skipped (month : String) (headers : List String)
    (dc wc mc : Nat) (rows1 rows2 : List (List (Option String)))
    (r : List (Option String)) (h : pyInt (rowCell r dc) = none) :
    processTableRow month headers dc wc mc r = .ok [] ∧
    concatE (processTableRow month headers dc wc mc) (rows1 ++ r :: rows2) =
      concatE (processTableRow month headers dc wc mc) (rows1 ++ rows2) := by
  have hr := @processTableRow_skip_of_pyInt_none month headers dc wc mc r h
  exact ⟨hr, concatE_skip hr rows1 rows2⟩

/-- Witness for C8: the row with date cell `"x"` is skipped and the following
well-formed row is still processed. -/
theorem spec_c8_bad_date_row_skipped_witness :
    pyInt (rowCell [some "x", some "月", some "ご飯"] 0) = none ∧
    concatE (processTableRow "00" ["日", "曜", "献立名"] 0 1 2)
        ([] ++ [some "x", some "月", some "ご飯"] :: [[some "3", some "月", some "ご飯"]]) =
      concatE (processTableRow "00" ["日", "曜", "献立名"] 0 1 2)
        ([] ++ [[some "3", some "月", some "ご飯"]]) :=
  ⟨by decide,
   (spec_c8_bad_date_row_skipped "00" ["日", "曜", "献立名"] 0 1 2 []
      [[some "3", some "月", some "ご飯"]] [some "x", some "月", some "ご飯"]
      (by decide)).2⟩

theorem pipeline_eq_pipelineSpec (s : PStructure) :
    extract_menu_data_from_structure s = pipelineSpec s := by
  unfold extract_menu_data_from_structure pipelineSpec
  cases htb : s.tables with
  | nil => simp [extractFromTables, concatE]
  | cons t ts => simp

/-- C2 amended: the pipeline equals the first-non-empty-wins cascade over the
three strategy functions; in particular, whenever the table strategy itself
yields a non-empty list, that list is the pipeline output and the later
strategies contribute nothing. -/
theorem spec_c2_first_nonempty (s : PStructure) :
    extract_menu_data_from_structure s = pipelineSpec s ∧
    ∀ L, extractFromTables s.tables (extractMonthFromPages s.pages) = .ok L → L ≠ [] →
      extract_menu_data_from_structure s = .ok L := by
  refine ⟨pipeline_eq_pipelineSpec s, ?_⟩
  intro L hL hne
  rw [pipeline_eq_pipelineSpec s]
  simp only [pipelineSpec, hL]
  rw [if_pos hne]

/-- Witness for C2: a structure whose table strategy succeeds makes the
pipeline return exactly the table strategy result. -/
theorem spec_c2_first_nonempty_witness :
    extract_menu_data_from_structure structTableGood =
      .ok [⟨"00/03(月)", "月", [⟨"ご飯", "主食"⟩], defaultTableNutrition⟩] :=
  (spec_c2_first_nonempty structTableGood).2 _ (by rfl) (by simp)

/-- C2 counterexample: the only table satisfies the header requirement, yet
its single data row fails date parsing, so the table strategy yields zero days
and the pipeline output comes from the text strategy — refuting the claim that
a satisfied header requirement alone silences the later strategies. -/
theorem spec_c2_counterexample :
    ("日" ∈ tableHeaders tblBadDate ∧ "曜" ∈ tableHeaders tblBadDate ∧
      "献立名" ∈ tableHeaders tblBadDate) ∧
    extractFromTables structTableBad.tables (extractMonthFromPages structTableBad.pages) =
      .ok [] ∧
    extract_menu_data_from_structure structTableBad =
      .ok [⟨"00/02(月)", "月", [⟨"ご飯", "主食"⟩], defaultTextNutrition⟩] :=
  ⟨by decide, by rfl, by rfl⟩

theorem mem_withNext {len : Nat} :
    ∀ {l : List DTok} {p : DTok × Nat}, p ∈ withNext len l → p.1 ∈ l := by
  intro l
  induction l with
  | nil => intro p h; simp [withNext] at h
  | cons t rest ih =>
    intro p h
    cases rest with
    | nil =>
      simp only [withNext, List.mem_singleton] at h
      subst h
      exact List.mem_cons_self _ _
    | cons t2 r2 =>
      simp only [withNext] at h
      rcases List.mem_cons.mp h with h1 | h2
      · subst h1; exact List.mem_cons_self _ _
      · exact List.mem_cons_of_mem _ (ih h2)

theorem processTok_ok_mem {month : String} {cs : List Char} {p : DTok × Nat}
    {menus : List DailyMenu} (h : processTok month cs p = .ok menus)
    {m : DailyMenu} (hm : m ∈ menus) :
    m.date = month ++ "/" ++ fmt02Nat p.1.val ++ "(" ++ m.day_of_week ++ ")" ∧
    parseMenuTextAdvanced (String.mk ((cs.drop p.1.tEnd).take (p.2 - p.1.tEnd))) =
      .ok m.menu_items := by
  simp only [processTok] at h
  split at h
  · exact absurd h (by simp)
  · rename_i items hparse
    split at h
    · cases h
      have hms := List.mem_singleton.mp hm
      subst hms
      exact ⟨rfl, hparse⟩
    · cases h
      simp at hm

theorem processDatePos_ok_mem {month : String} {words : List Word} {dp : DatePos}
    {menus : List DailyMenu} (h : processDatePos month words dp = .ok menus)
    {m : DailyMenu} (hm : m ∈ menus) :
    dp.date ≤ 31 ∧
    m.date = month ++ "/" ++ fmt02Nat dp.date ++ "(" ++ m.day_of_week ++ ")" ∧
    ∃ text, parseMenuTextAdvanced text = .ok m.menu_items := by
  simp only [processDatePos] at h
  split at h
  · rename_i hle
    split at h
    · split at h
      · exact absurd h (by simp)
      · rename_i items hparse
        split at h
        · cases h
          have hms := List.mem_singleton.mp hm
          subst hms
          exact ⟨hle, rfl, _, hparse⟩
        · cases h; simp at hm
    · cases h; simp at hm
  · cases h; simp at hm

theorem processTableRow_ok_mem {month : String} {headers : List String}
    {dc wc mc : Nat} {row : List (Option String)} {menus : List DailyMenu}
    (h : processTableRow month headers dc wc mc row = .ok menus)
    {m : DailyMenu} (hm : m ∈ menus) :
    ∃ text, parseMenuTextAdvanced text = .ok m.menu_items := by
  simp only [processTableRow] at h
  split at h
  · cases h; simp at hm
  · split at h
    · split at h
      · cases h; simp at hm
      · split at h
        · exact absurd h (by simp)
        · rename_i items hparse
          split at h
          · cases h
            have hms := List.mem_singleton.mp hm
            subst hms
            exact ⟨_, hparse⟩
          · cases h; simp at hm
    · cases h; simp at hm

theorem textStrategy_label {pages : List PageInfo} {month : String} {menus : List DailyMenu}
    (h : extractFromTextAnalysis pages month = .ok menus) :
    ∀ m ∈ menus, labelDayIn 1 31 month m := by
  intro m hm
  simp only [extractFromTextAnalysis] at h
  obtain ⟨p, hp, ys, hys, hmys⟩ := concatE_mem h m hm
  obtain ⟨hd, -⟩ := processTok_ok_mem hys hmys
  have ht : p.1 ∈ keptTokens _ := mem_withNext hp
  have hval : 1 ≤ p.1.val ∧ p.1.val ≤ 31 := by
    have hf := List.mem_filter.mp ht
    simpa using hf.2
  exact ⟨p.1.val, by simp [Finset.mem_Icc, hval.1, hval.2], hd⟩

theorem posStrategy_label {pages : List PageInfo} {dps : List DatePos} {month : String}
    {menus : List DailyMenu} (h : extractFromPositions pages dps month = .ok menus) :
    ∀ m ∈ menus, labelDayIn 0 31 month m := by
  intro m hm
  obtain ⟨pg, hpg, ys, hys, hmys⟩ := concatE_mem h m hm
  obtain ⟨dp, hdp, zs, hzs, hmzs⟩ := concatE_mem hys m hmys
  obtain ⟨hle, hd, -⟩ := processDatePos_ok_mem hzs hmzs
  exact ⟨dp.date, by simp [Finset.mem_Icc, hle], hd⟩

/-- C4 amended: every DailyMenu emitted by the text strategy carries a
day-of-month in 1..31; the position strategy guarantees only 0..31 (its guard
checks the upper bound alone); the table strategy applies no range check. -/
theorem spec_c4_amended :
    (∀ (pages : List PageInfo) (month : String) (menus : List DailyMenu),
      extractFromTextAnalysis pages month = .ok menus →
        ∀ m ∈ menus, labelDayIn 1 31 month m) ∧
    (∀ (pages : List PageInfo) (dps : List DatePos) (month : String)
        (menus : List DailyMenu),
      extractFromPositions pages dps month = .ok menus →
        ∀ m ∈ menus, labelDayIn 0 31 month m) :=
  ⟨fun _ _ _ h => textStrategy_label h, fun _ _ _ _ h => posStrategy_label h⟩

/-- Witness for amended C4: the text strategy on "3 月 ご飯" emits a menu
whose label day parses back to 3. -/
theorem spec_c4_amended_witness :
    labelDayIn 1 31 "00"
      ⟨"00/03(月)", "月", [⟨"ご飯", "主食"⟩], defaultTextNutrition⟩ :=
  spec_c4_amended.1 [⟨"3 月 ご飯", []⟩] "00"
    [⟨"00/03(月)", "月", [⟨"ご飯", "主食"⟩], defaultTextNutrition⟩] (by rfl)
    ⟨"00/03(月)", "月", [⟨"ご飯", "主食"⟩], defaultTextNutrition⟩ (by simp)

/-- C4 counterexample: the table strategy happily emits day 99 — the label of
the produced DailyMenu has no day component in 1..31. -/
theorem spec_c4_counterexample :
    extractFromTables [tbl99] "00" =
      .ok [⟨"00/99(月)", "月", [⟨"ご飯", "主食"⟩], defaultTableNutrition⟩] ∧
    ¬ labelDayIn 1 31 "00"
        ⟨"00/99(月)", "月", [⟨"ご飯", "主食"⟩], defaultTableNutrition⟩ := by
  refine ⟨by rfl, ?_⟩
  unfold labelDayIn
  decide

/-- C3 (code bug): extraction is not total.  On "ご飯 わかめご飯" the per-part
pass first records ご飯; while checking わかめご飯, the subsumption loop
discards ご飯 from the very set it is iterating, so the next step of the set
iterator raises `RuntimeError: Set changed size during iteration`, which no
caller catches. -/
theorem spec_c3_raises :
    parseMenuTextAdvanced "ご飯 わかめご飯" = .error .runtimeError := by rfl

theorem shouldIncludeLoop_ok_true {dish : String} :
    ∀ {found : List String}, shouldIncludeLoop dish found = .ok true →
      ∀ e ∈ found,
        ¬(dish ≠ e ∧ substrB dish e = true) ∧ ¬(e ≠ dish ∧ substrB e dish = true) := by
  intro found
  induction found with
  | nil => intro _ e he; simp at he
  | cons x rest ih =>
    intro h e he
    simp only [shouldIncludeLoop] at h
    split at h
    · exact absurd h (by simp)
    · split at h
      · exact absurd h (by simp)
      · rename_i h1 h2
        rcases List.mem_cons.mp he with rfl | he2
        · exact ⟨h1, h2⟩
        · exact ih h e he2

theorem shouldIncludeDish_ok_true {dish : String} {found : List String}
    (h : shouldIncludeDish dish found = .ok true) :
    ∀ e ∈ found,
      ¬(dish ≠ e ∧ substrB dish e = true) ∧ ¬(e ≠ dish ∧ substrB e dish = true) := by
  simp only [shouldIncludeDish] at h
  split at h
  · exact absurd h (by simp)
  · exact shouldIncludeLoop_ok_true h

theorem namesSubFree_snoc {names : List String} {dish : String}
    (h : NamesSubFree names) (hnotin : dish ∉ names)
    (hall : ∀ e ∈ names,
      ¬(dish ≠ e ∧ substrB dish e = true) ∧ ¬(e ≠ dish ∧ substrB e dish = true)) :
    NamesSubFree (names ++ [dish]) := by
  unfold NamesSubFree at h ⊢
  rw [List.pairwise_append]
  refine ⟨h, List.pairwise_singleton _ _, ?_⟩
  intro a ha b hb
  rw [List.mem_singleton] at hb
  rw [hb]
  have hne : a ≠ dish := fun heq => hnotin (heq ▸ ha)
  obtain ⟨h1, h2⟩ := hall a ha
  refine ⟨hne, ?_, ?_⟩
  · have hx : ¬ substrB a dish = true := fun hh => h2 ⟨hne, hh⟩
    simpa using hx
  · have hx : ¬ substrB dish a = true := fun hh => h1 ⟨Ne.symm hne, hh⟩
    simpa using hx

theorem invSt_snoc {st : List MenuItem × List String} {dish cat : String}
    (hInv : InvSt st) (hnotin : dish ∉ st.2)
    (hok : shouldIncludeDish dish st.2 = .ok true) :
    InvSt (st.1 ++ [⟨dish, cat⟩], st.2 ++ [dish]) := by
  obtain ⟨hmap, hfree⟩ := hInv
  constructor
  · simp [hmap]
  · exact namesSubFree_snoc hfree hnotin (shouldIncludeDish_ok_true hok)

theorem addFoundPart_inv {st st2 : List MenuItem × List String} {dish : String}
    (h : addFoundPart st dish = .ok st2) (hInv : InvSt st) : InvSt st2 := by
  simp only [addFoundPart] at h
  split at h
  · rename_i hg
    split at h
    · split at h
      · exact absurd h (by simp)
      · cases h
        exact invSt_snoc hInv hg.2 (by assumption)
      · cases h; exact hInv
    · cases h; exact hInv
  · cases h; exact hInv

theorem addFoundPat_inv {st st2 : List MenuItem × List String} {dish : String}
    (h : addFoundPat st dish = .ok st2) (hInv : InvSt st) : InvSt st2 := by
  simp only [addFoundPat] at h
  split at h
  · rename_i hg
    split at h
    · exact absurd h (by simp)
    · cases h
      exact invSt_snoc hInv hg.1 (by assumption)
    · cases h; exact hInv
  · cases h; exact hInv

theorem foldE_inv {σ α : Type} {P : σ → Prop} {f : σ → α → Except PyErr σ}
    (hf : ∀ s a s2, P s → f s a = .ok s2 → P s2) :
    ∀ {l : List α} {s s2 : σ}, foldE f s l = .ok s2 → P s → P s2 := by
  intro l
  induction l with
  | nil =>
    intro s s2 h hP
    simp only [foldE] at h
    cases h
    exact hP
  | cons a l ih =>
    intro s s2 h hP
    simp only [foldE] at h
    split at h
    · rename_i s3 hfa
      exact ih h (hf s a s3 hP hfa)
    · exact absurd h (by simp)

theorem processPart_inv {st st2 : List MenuItem × List String} {part : List Char}
    (h : processPart st part = .ok st2) (hInv : InvSt st) : InvSt st2 := by
  simp only [processPart] at h
  split at h
  · cases h; exact hInv
  · split at h
    · cases h; exact hInv
    · exact foldE_inv (fun _ _ _ hP hfa => addFoundPart_inv hfa hP) h hInv

theorem parse_ok_namesSubFree {text : String} {items : List MenuItem}
    (h : parseMenuTextAdvanced text = .ok items) :
    NamesSubFree (items.map MenuItem.name) := by
  simp only [parseMenuTextAdvanced] at h
  split at h
  · exact absurd h (by simp)
  · rename_i st1 h1
    split at h
    · exact absurd h (by simp)
    · rename_i st2 h2
      cases h
      have hInv0 : InvSt ([], []) := ⟨rfl, List.Pairwise.nil⟩
      have hInv1 := foldE_inv (fun _ _ _ hP hfa => processPart_inv hfa hP) h1 hInv0
      have hInv2 := foldE_inv (fun _ _ _ hP hfa => addFoundPat_inv hfa hP) h2 hInv1
      rw [← hInv2.1]
      exact hInv2.2

theorem extractFromTable_ok_mem {month : String} {tbl : List (List (Option String))}
    {menus : List DailyMenu} (h : extractFromTable month tbl = .ok menus)
    {m : DailyMenu} (hm : m ∈ menus) :
    ∃ text, parseMenuTextAdvanced text = .ok m.menu_items := by
  simp only [extractFromTable] at h
  split at h
  · cases h; simp at hm
  · split at h
    · obtain ⟨row, hrow, ys, hys, hmys⟩ := concatE_mem h m hm
      exact processTableRow_ok_mem hys hmys
    · cases h; simp at hm

theorem extractFromTables_ok_mem {tables : List (List (List (Option String)))}
    {month : String} {menus : List DailyMenu}
    (h : extractFromTables tables month = .ok menus) {m : DailyMenu} (hm : m ∈ menus) :
    ∃ text, parseMenuTextAdvanced text = .ok m.menu_items := by
  obtain ⟨tbl, htbl, ys, hys, hmys⟩ := concatE_mem h m hm
  exact extractFromTable_ok_mem hys hmys

theorem extractFromPositions_ok_mem {pages : List PageInfo} {dps : List DatePos}
    {month : String} {menus : List DailyMenu}
    (h : extractFromPositions pages dps month = .ok menus) {m : DailyMenu} (hm : m ∈ menus) :
    ∃ text, parseMenuTextAdvanced text = .ok m.menu_items := by
  obtain ⟨pg, hpg, ys, hys, hmys⟩ := concatE_mem h m hm
  obtain ⟨dp, hdp, zs, hzs, hmzs⟩ := concatE_mem hys m hmys
  exact (processDatePos_ok_mem hzs hmzs).2.2

theorem extractFromTextAnalysis_ok_mem {pages : List PageInfo} {month : String}
    {menus : List DailyMenu} (h : extractFromTextAnalysis pages month = .ok menus)
    {m : DailyMenu} (hm : m ∈ menus) :
    ∃ text, parseMenuTextAdvanced text = .ok m.menu_items := by
  simp only [extractFromTextAnalysis] at h
  obtain ⟨p, hp, ys, hys, hmys⟩ := concatE_mem h m hm
  exact ⟨_, (processTok_ok_mem hys hmys).2⟩

theorem pipeline_menus_parse {s : PStructure} {menus : List DailyMenu}
    (h : extract_menu_data_from_structure s = .ok menus) {m : DailyMenu} (hm : m ∈ menus) :
    ∃ text, parseMenuTextAdvanced text = .ok m.menu_items := by
  rw [pipeline_eq_pipelineSpec] at h
  simp only [pipelineSpec] at h
  split at h
  · exact absurd h (by simp)
  · rename_i t ht
    split at h
    · cases h
      exact extractFromTables_ok_mem ht hm
    · split at h
      · exact absurd h (by simp)
      · rename_i p hp
        split at h
        · cases h
          exact extractFromPositions_ok_mem hp hm
        · exact extractFromTextAnalysis_ok_mem h hm

/-- C1: every dish list of a DailyMenu produced by the pipeline has pairwise
distinct names with no name a strict substring of another (whenever extraction
returns at all; the discard path that could break this raises instead, see C3). -/
theorem spec_c1_dish_invariant :
    ∀ (s : PStructure) (menus : List DailyMenu),
      extract_menu_data_from_structure s = .ok menus →
      ∀ m ∈ menus, NamesSubFree (m.menu_items.map MenuItem.name) := by
  intro s menus h m hm
  obtain ⟨text, hp⟩ := pipeline_menus_parse h hm
  exact parse_ok_namesSubFree hp

/-- Witness for C1 on a concrete table extraction. -/
theorem spec_c1_dish_invariant_witness :
    NamesSubFree (([⟨"ご飯", "主食"⟩] : List MenuItem).map MenuItem.name) :=
  spec_c1_dish_invariant structTableGood
    [⟨"00/03(月)", "月", [⟨"ご飯", "主食"⟩], defaultTableNutrition⟩] (by rfl)
    ⟨"00/03(月)", "月", [⟨"ご飯", "主食"⟩], defaultTableNutrition⟩ (by simp)

theorem wsWeekday_shape {cs : List Char} {w : Nat} {wd : Char}
    (h : wsWeekday cs = some (w, wd)) :
    ∃ ws rest, cs = ws ++ wd :: rest ∧ ws.length = w ∧
      (∀ c ∈ ws, pyWs c = true) ∧ weekdayChar wd = true := by
  unfold wsWeekday at h
  cases hdw : cs.dropWhile pyWs with
  | nil => rw [hdw] at h; simp at h
  | cons x xs =>
    rw [hdw] at h
    simp only [List.head?_cons] at h
    split at h
    · rename_i hwd
      simp only [Option.some.injEq, Prod.mk.injEq] at h
      obtain ⟨hw, hx⟩ := h
      subst hw
      subst hx
      refine ⟨cs.takeWhile pyWs, xs, ?_, rfl, ?_, hwd⟩
      · have hsplitcs : cs.takeWhile pyWs ++ cs.dropWhile pyWs = cs :=
          List.takeWhile_append_dropWhile pyWs cs
        conv_lhs => rw [← hsplitcs]
        rw [hdw]
      · intro c hc
        exact List.mem_takeWhile_imp hc
    · exact absurd h (by simp)

theorem oneDigitTok_shape {c0 : Char} {rest : List Char} {v : Nat} {wd : Char} {len : Nat}
    (h : oneDigitTok c0 rest = some (v, wd, len)) :
    ∃ ws rest2, rest = ws ++ wd :: rest2 ∧ len = 1 + ws.length + 1 ∧
      (∀ c ∈ ws, pyWs c = true) ∧ weekdayChar wd = true ∧ v = digitVal c0 := by
  unfold oneDigitTok at h
  split at h
  · rename_i w0 wd0 hwsw
    simp only [Option.some.injEq, Prod.mk.injEq] at h
    obtain ⟨hv, hwd0, hlen⟩ := h
    subst hv
    subst hwd0
    subst hlen
    obtain ⟨ws, rest2, hr, hlw, hall, hwdc⟩ := wsWeekday_shape hwsw
    exact ⟨ws, rest2, hr, by rw [hlw], hall, hwdc, rfl⟩
  · exact absurd h (by simp)

theorem dateTokAt_shape_one {c0 : Char} {rest : List Char} {v : Nat} {wd : Char} {len : Nat}
    (hdig : c0.isDigit = true) (h : oneDigitTok c0 rest = some (v, wd, len)) :
    ∃ ds ws rest2, c0 :: rest = ds ++ ws ++ wd :: rest2 ∧
      len = ds.length + ws.length + 1 ∧
      1 ≤ ds.length ∧ ds.length ≤ 2 ∧ (∀ c ∈ ds, c.isDigit = true) ∧
      (∀ c ∈ ws, pyWs c = true) ∧ weekdayChar wd = true ∧ v = digitsVal ds := by
  obtain ⟨ws, rest2, hr, hlen, hws, hwd, hv⟩ := oneDigitTok_shape h
  refine ⟨[c0], ws, rest2, ?_, ?_, by simp, by simp, ?_, hws, hwd, ?_⟩
  · rw [hr]; rfl
  · simpa using hlen
  · intro c hc
    rw [List.mem_singleton] at hc
    rw [hc]
    exact hdig
  · rw [hv]; simp [digitsVal]

theorem dateTokAt_shape {cs : List Char} {v : Nat} {wd : Char} {len : Nat}
    (h : dateTokAt cs = some (v, wd, len)) :
    ∃ ds ws rest, cs = ds ++ ws ++ wd :: rest ∧ len = ds.length + ws.length + 1 ∧
      1 ≤ ds.length ∧ ds.length ≤ 2 ∧ (∀ c ∈ ds, c.isDigit = true) ∧
      (∀ c ∈ ws, pyWs c = true) ∧ weekdayChar wd = true ∧ v = digitsVal ds := by
  cases cs with
  | nil => simp [dateTokAt] at h
  | cons c0 cs1 =>
    cases cs1 with
    | nil =>
      simp only [dateTokAt] at h
      split at h
      · rename_i hdig
        obtain ⟨ws, rest2, hr, -, -, -, -⟩ := oneDigitTok_shape h
        exact absurd hr (by simp)
      · exact absurd h (by simp)
    | cons c1 rest2 =>
      simp only [dateTokAt] at h
      split at h
      · rename_i hdig0
        split at h
        · rename_i hdig1
          split at h
          · rename_i w0 wd0 hwsw
            simp only [Option.some.injEq, Prod.mk.injEq] at h
            obtain ⟨hv, hwd0, hlen⟩ := h
            subst hv
            subst hwd0
            subst hlen
            obtain ⟨ws, rest3, hr, hlw, hall, hwdc⟩ := wsWeekday_shape hwsw
            refine ⟨[c0, c1], ws, rest3, ?_, ?_, by simp, by simp, ?_, hall, hwdc, ?_⟩
            · rw [hr]; rfl
            · rw [hlw]; rfl
            · intro c hc
              rcases List.mem_cons.mp hc with hc0 | hc1
              · rw [hc0]; exact hdig0
              · rw [List.mem_singleton] at hc1
                rw [hc1]; exact hdig1
            · simp [digitsVal]
          · exact dateTokAt_shape_one hdig0 h
        · exact dateTokAt_shape_one hdig0 h
      · exact absurd h (by simp)

theorem tokenShape_congr {cs cs2 : List Char} {t : DTok} (h : TokenShape cs t)
    (he : cs = cs2) : TokenShape cs2 t := he ▸ h

theorem dateTokScanF_shape :
    ∀ (fuel : Nat) (pre suffix : List Char) (t : DTok),
      t ∈ dateTokScanF fuel pre.length suffix → TokenShape (pre ++ suffix) t := by
  intro fuel
  induction fuel with
  | zero => intro pre suffix t h; simp [dateTokScanF] at h
  | succ fuel ih =>
    intro pre suffix t h
    cases suffix with
    | nil => simp [dateTokScanF] at h
    | cons c rest =>
      simp only [dateTokScanF] at h
      split at h
      · rename_i v wd len htok
        obtain ⟨ds, ws, rest3, hdec, hlen, hd1, hd2, hdig, hws, hwd, hv⟩ :=
          dateTokAt_shape htok
        rcases List.mem_cons.mp h with rfl | h2
        · refine ⟨pre, ds, ws, rest3, wd, ?_, rfl, ?_, hd1, hd2, hdig, hws, hwd, hv, rfl⟩
          · rw [hdec]
            simp [List.append_assoc]
          · simp only []
            omega
        · have hlenle : len ≤ (c :: rest).length := by
            rw [hlen, hdec]
            simp only [List.length_append, List.length_cons]
            omega
          have hpre2 : (pre ++ (c :: rest).take len).length = pre.length + len := by
            rw [List.length_append, List.length_take, Nat.min_eq_left hlenle]
          have hsplit : (pre ++ (c :: rest).take len) ++ (c :: rest).drop len =
              pre ++ (c :: rest) := by
            rw [List.append_assoc, List.take_append_drop]
          have hmem : t ∈ dateTokScanF fuel (pre ++ (c :: rest).take len).length
              ((c :: rest).drop len) := by
            rw [hpre2]
            exact h2
          have := ih (pre ++ (c :: rest).take len) ((c :: rest).drop len) t hmem
          exact tokenShape_congr this hsplit
      · have hpre2 : (pre ++ [c]).length = pre.length + 1 := by simp
        have hmem : t ∈ dateTokScanF fuel (pre ++ [c]).length rest := by
          rw [hpre2]
          exact h
        have := ih (pre ++ [c]) rest t hmem
        exact tokenShape_congr this (by simp)

theorem textTokens_shape {cs : List Char} {t : DTok} (h : t ∈ textTokens cs) :
    TokenShape cs t := by
  have h0 : t ∈ dateTokScanF cs.length (List.length ([] : List Char)) cs := by
    simpa [textTokens] using h
  have := dateTokScanF_shape cs.length [] cs t h0
  simpa using this

theorem keptTokens_bound {cs : List Char} {t : DTok} (h : t ∈ keptTokens cs) :
    1 ≤ t.val ∧ t.val ≤ 31 := by
  have hf := List.mem_filter.mp h
  simpa using hf.2

theorem withNext_eq_zip (len : Nat) :
    ∀ l : List DTok, withNext len l = l.zip ((l.map DTok.start).drop 1 ++ [len])
  | [] => rfl
  | [t] => rfl
  | t :: t2 :: rest => by
    have ih := withNext_eq_zip len (t2 :: rest)
    simp only [withNext, ih, List.map_cons, List.drop_succ_cons, List.drop_zero,
      List.zip_cons_cons, List.cons_append]

/-- C7 amended: a date token of the text strategy is one or two digits
followed by an (possibly empty) whitespace run and then a weekday character;
only tokens with value 1..31 are kept; and each kept token is paired with the
start offset of the next kept token (the text length for the last), which
delimits its menu span. -/
theorem spec_c7_amended :
    (∀ (cs : List Char) (t : DTok), t ∈ textTokens cs → TokenShape cs t) ∧
    (∀ (cs : List Char) (t : DTok), t ∈ keptTokens cs → 1 ≤ t.val ∧ t.val ≤ 31) ∧
    (∀ (len : Nat) (l : List DTok),
      withNext len l = l.zip ((l.map DTok.start).drop 1 ++ [len])) :=
  ⟨fun _ _ h => textTokens_shape h, fun _ _ h => keptTokens_bound h,
   fun len l => withNext_eq_zip len l⟩

/-- Witness for amended C7: the token found in "3 月" decomposes as digit,
whitespace, weekday. -/
theorem spec_c7_amended_witness :
    TokenShape "3 月".data ⟨3, '月', 0, 3⟩ :=
  spec_c7_amended.1 "3 月".data ⟨3, '月', 0, 3⟩ (by decide)

/-- C7 counterexample: the text "3 月 ご飯" contains no token in the sense of
the claim as stated (digits immediately followed by a weekday character), yet
the text strategy finds the whitespace-separated token and emits a menu. -/
theorem spec_c7_counterexample :
    extractFromTextAnalysis [⟨"3 月 ご飯", []⟩] "00" =
      .ok [⟨"00/03(月)", "月", [⟨"ご飯", "主食"⟩], defaultTextNutrition⟩] ∧
    hasAdjToken "3 月 ご飯".data = false :=
  ⟨by rfl, by rfl⟩

end Kondate
